import Mathlib

/-!
Verification of the face-recognition access-control pipeline.

Shallow embedding of the decision/actuation core of the repository:
* the per-frame stability filter of `recognize_and_control.py`
  (`_update_stability` / `process_frame`),
* the access-policy evaluator `AccessControlService.verify_access` of
  `services.py` and the `/api/check-access` endpoint of `app.py`,
* the decision cache `_log_to_flask_api` and the password-challenge
  state of `recognize_and_control_proteus.py`,
* the serial line protocol and the receiver-side motor state machine of
  `Proteus_program_face_recognition.py`.

Times are rationals (seconds); machine floats of the source carry exact
decimal values here.  Hardware side effects (GPIO pins, the LCD panel,
stdout logging, the SQL access log) have no influence on control flow
and are not part of the state; ghost counters record how often the
observable actions (door-open dispatch, motor stop, policy query,
timeout transition) happen.
-/

namespace FaceAccess

/-! ### Stability filter (`recognize_and_control.py`) -/

/-- `STABILITY_FRAMES = 3` — require N consecutive predictions before acting. -/
def STABILITY_FRAMES : Nat := 3

/-- The controller's stability fields `_streak_label` / `_streak_count`.
`streakLabel = none` is Python's `None` (after `_reset_stability`). -/
structure StabilityState where
  streakLabel : Option Int
  streakCount : Nat
deriving Repr, DecidableEq

/-- Initial stability state (`_streak_label = None`, `_streak_count = 0`). -/
def initStability : StabilityState := ⟨none, 0⟩

/-- `_update_stability(label)`: same label as the current streak extends it,
any other label restarts the streak at 1. -/
def updateStability (label : Int) (s : StabilityState) : StabilityState :=
  if some label = s.streakLabel then
    { s with streakCount := s.streakCount + 1 }
  else
    { streakLabel := some label, streakCount := 1 }

/-- One detected face inside `process_frame`: run `_update_stability`, then
`user_label = _streak_label if _streak_count >= STABILITY_FRAMES else None`;
the grant action (`_grant_access`) fires iff `user_label` is neither `None`
nor the unknown sentinel `-1`.  Returns the new state and whether the grant
action fired on this frame. -/
def faceStep (label : Int) (s : StabilityState) : StabilityState × Bool :=
  let s' := updateStability label s
  let userLabel : Option Int :=
    if STABILITY_FRAMES ≤ s'.streakCount then s'.streakLabel else none
  (s', decide (userLabel ≠ none ∧ userLabel ≠ some (-1)))

/-- Feed a sequence of per-face candidate labels in order, counting how
often the grant action fires. -/
def runFaces (s : StabilityState) : List Int → StabilityState × Nat
  | [] => (s, 0)
  | label :: rest =>
    let r := faceStep label s
    let t := runFaces r.1 rest
    (t.1, (if r.2 then 1 else 0) + t.2)

theorem faceStep_same (l : Int) (hl : l ≠ -1) (n : Nat) :
    faceStep l ⟨some l, n⟩ = (⟨some l, n + 1⟩, decide (3 ≤ n + 1)) := by
  simp only [faceStep, updateStability, STABILITY_FRAMES, if_pos rfl]
  by_cases h3 : 3 ≤ n + 1
  · simp [h3, hl]
  · simp [h3]

theorem faceStep_fresh (l : Int) : faceStep l initStability = (⟨some l, 1⟩, false) := by
  simp [faceStep, updateStability, initStability, STABILITY_FRAMES]

/-- Extending a streak of length `m` by `n` more identical candidates
`l ≠ -1` fires the grant action `(m + n - 2) - (m - 2)` times. -/
theorem runFaces_same_replicate (l : Int) (hl : l ≠ -1) :
    ∀ (n m : Nat),
      runFaces ⟨some l, m⟩ (List.replicate n l) =
        (⟨some l, m + n⟩, (m + n - 2) - (m - 2)) := by
  intro n
  induction n with
  | zero => intro m; simp [runFaces]
  | succ k ih =>
    intro m
    rw [List.replicate_succ]
    simp only [runFaces, faceStep_same l hl m, ih (m + 1)]
    simp only [Prod.mk.injEq, StabilityState.mk.injEq]
    refine ⟨⟨trivial, by omega⟩, ?_⟩
    by_cases h3 : 3 ≤ m + 1 <;> simp [h3] <;> omega

/-- From the reset state, `k ≥ 1` identical candidates `l ≠ -1` leave
streak `⟨some l, k⟩` and fire the grant action `k - 2` times (truncated
subtraction): never for `k < STABILITY_FRAMES`, once at `k = 3`, and
once more on every further frame. -/
theorem runFaces_replicate (l : Int) (hl : l ≠ -1) (k : Nat) (hk : 1 ≤ k) :
    runFaces initStability (List.replicate k l) = (⟨some l, k⟩, k - 2) := by
  obtain ⟨n, rfl⟩ : ∃ n, k = n + 1 := ⟨k - 1, by omega⟩
  rw [List.replicate_succ]
  simp only [runFaces, faceStep_fresh, runFaces_same_replicate l hl n 1]
  simp only [Prod.mk.injEq, StabilityState.mk.injEq]
  refine ⟨⟨trivial, by omega⟩, ?_⟩
  simp
  omega

/-- C1: the claim as stated is false — after the threshold is reached, the
grant action fires again on every further frame with the same candidate.
Concretely, four consecutive frames of candidate `1` fire the action twice
(at the 3rd and 4th frames), not exactly once. -/
theorem stability_filter_reemits_counterexample :
    (runFaces initStability (List.replicate 4 1)).2 = 2 ∧
      ¬ (runFaces initStability (List.replicate 4 1)).2 = 1 := by
  decide

/-- C1 (amended): for runs of identical candidates `l ≠ -1` from the reset
state, nothing is emitted while the run is shorter than `STABILITY_FRAMES`;
at exactly `STABILITY_FRAMES` one grant action fires; but the filter does
not latch — every further frame of the same candidate fires the action
again, for a total of `k - 2` actions over `k ≥ 3` frames. -/
theorem stability_filter_threshold_behaviour (l : Int) (hl : l ≠ -1) (k : Nat) :
    (k < STABILITY_FRAMES → (runFaces initStability (List.replicate k l)).2 = 0) ∧
    (runFaces initStability (List.replicate STABILITY_FRAMES l)).2 = 1 ∧
    (STABILITY_FRAMES ≤ k → (runFaces initStability (List.replicate k l)).2 = k - 2) := by
  have hrun : ∀ j : Nat, 1 ≤ j →
      (runFaces initStability (List.replicate j l)).2 = j - 2 := by
    intro j hj
    rw [runFaces_replicate l hl j hj]
  refine ⟨?_, ?_, ?_⟩
  · intro hk
    rcases Nat.eq_zero_or_pos k with h0 | h1
    · subst h0; simp [runFaces]
    · rw [hrun k h1]
      simp only [STABILITY_FRAMES] at hk
      omega
  · rw [hrun STABILITY_FRAMES (by simp [STABILITY_FRAMES])]
    simp [STABILITY_FRAMES]
  · intro hk
    exact hrun k (by simp only [STABILITY_FRAMES] at hk; omega)

/-- Witness for `stability_filter_threshold_behaviour` at `l = 1`, `k = 4`:
the grant action fires `4 - 2 = 2` times. -/
theorem stability_filter_threshold_behaviour_witness :
    (runFaces initStability (List.replicate 4 1)).2 = 4 - 2 :=
  (stability_filter_threshold_behaviour 1 (by decide) 4).2.2 (by decide)

/-! ### Access policy evaluator (`services.py`, `AccessControlService.verify_access`) -/

/-- An `Employee` row, restricted to the columns `verify_access` reads. -/
structure Employee where
  id : Int
  name : String
deriving Repr, DecidableEq

/-- An `AccessRule` row: employee key, day of week (0 = Monday … 6 = Sunday)
and a closed daily time window.  `datetime.time` values are totally ordered
lexicographically by (hour, minute, second, microsecond), an order
embedding into `Nat`; a time of day is embedded as that natural number. -/
structure AccessRule where
  employeeId : Int
  dayOfWeek : Nat
  startTime : Nat
  endTime : Nat
deriving Repr, DecidableEq

/-- The policy store the queries of `verify_access` run against. -/
structure PolicyStore where
  employees : List Employee
  rules : List AccessRule
deriving Repr

/-- The dict `{'granted': …, 'employee_name': …, 'reason': …}` returned by
`verify_access` (`none` embeds Python `None`). -/
structure PolicyResult where
  granted : Bool
  employeeName : Option String
  reason : Option String
deriving Repr, DecidableEq

/-- `Employee.query.filter_by(id=face_id).first()`. -/
def findEmployee (store : PolicyStore) (faceId : Int) : Option Employee :=
  store.employees.find? (fun e => e.id == faceId)

/-- `AccessRule.query.filter_by(employee_id=…, day_of_week=…).all()`. -/
def rulesFor (store : PolicyStore) (employeeId : Int) (day : Nat) : List AccessRule :=
  store.rules.filter (fun r => r.employeeId == employeeId && r.dayOfWeek == day)

/-- The `for rule in rules` loop of `verify_access`: the first rule whose
closed window `[start_time, end_time]` contains the current time grants;
falling off the loop denies with the outside-hours reason. -/
def checkRules (name : String) (t : Nat) : List AccessRule → PolicyResult
  | [] => ⟨false, some name, some "Outside scheduled access hours"⟩
  | r :: rest =>
    if r.startTime ≤ t ∧ t ≤ r.endTime then ⟨true, some name, none⟩
    else checkRules name t rest

/-- `AccessControlService.verify_access(face_id)` evaluated at the given
(day-of-week, time-of-day) instant. -/
def verifyAccess (store : PolicyStore) (faceId : Int) (day : Nat) (t : Nat) :
    PolicyResult :=
  match findEmployee store faceId with
  | none => ⟨false, none, some "Employee not found"⟩
  | some e =>
    let rules := rulesFor store e.id day
    if rules.isEmpty then
      ⟨false, some e.name, some "No access rule defined for this day"⟩
    else
      checkRules e.name t rules

theorem checkRules_granted_iff (name : String) (t : Nat) (rs : List AccessRule) :
    (checkRules name t rs).granted = true ↔
      ∃ r ∈ rs, r.startTime ≤ t ∧ t ≤ r.endTime := by
  induction rs with
  | nil => simp [checkRules]
  | cons r rest ih =>
    by_cases h : r.startTime ≤ t ∧ t ≤ r.endTime
    · simp [checkRules, h]
    · simp [checkRules, h, ih]

theorem checkRules_shape (name : String) (t : Nat) (rs : List AccessRule) :
    checkRules name t rs = ⟨true, some name, none⟩ ∨
      checkRules name t rs = ⟨false, some name, some "Outside scheduled access hours"⟩ := by
  induction rs with
  | nil => right; rfl
  | cons r rest ih =>
    by_cases h : r.startTime ≤ t ∧ t ≤ r.endTime
    · left; simp [checkRules, h]
    · simpa [checkRules, h] using ih

/-- C2: the four-way case analysis of the access policy evaluator.  For any
store, identity and (day, time) instant: no matching subject denies with
the subject-not-found reason; a subject without rules for that day denies
with the no-rule reason; otherwise the request is granted exactly when the
time lies in the closed window `[start, end]` of some rule of that subject
for that day, and denied with the outside-hours reason otherwise. -/
theorem verify_access_cases (store : PolicyStore) (faceId : Int) (day t : Nat) :
    (findEmployee store faceId = none →
        verifyAccess store faceId day t = ⟨false, none, some "Employee not found"⟩) ∧
    (findEmployee store faceId = none ↔ ∀ e ∈ store.employees, ¬ e.id = faceId) ∧
    (∀ e, findEmployee store faceId = some e →
      (rulesFor store e.id day = [] →
          verifyAccess store faceId day t =
            ⟨false, some e.name, some "No access rule defined for this day"⟩) ∧
      (rulesFor store e.id day ≠ [] →
        ((verifyAccess store faceId day t).granted = true ↔
            ∃ r ∈ rulesFor store e.id day, r.startTime ≤ t ∧ t ≤ r.endTime) ∧
        ((verifyAccess store faceId day t).granted = true →
            verifyAccess store faceId day t = ⟨true, some e.name, none⟩) ∧
        ((verifyAccess store faceId day t).granted = false →
            verifyAccess store faceId day t =
              ⟨false, some e.name, some "Outside scheduled access hours"⟩))) := by
  refine ⟨?_, ?_, ?_⟩
  · intro h
    simp [verifyAccess, h]
  · simp [findEmployee, List.find?_eq_none]
  · intro e he
    constructor
    · intro hrules
      simp [verifyAccess, he, hrules]
    · intro hrules
      have hne : (rulesFor store e.id day).isEmpty = false := by
        simpa [List.isEmpty_iff] using hrules
      have hval : verifyAccess store faceId day t =
          checkRules e.name t (rulesFor store e.id day) := by
        simp [verifyAccess, he, hne]
      refine ⟨?_, ?_, ?_⟩
      · rw [hval]; exact checkRules_granted_iff e.name t _
      · intro hg
        rw [hval]
        rcases checkRules_shape e.name t (rulesFor store e.id day) with h | h
        · exact h
        · rw [hval, h] at hg; simp at hg
      · intro hg
        rw [hval]
        rcases checkRules_shape e.name t (rulesFor store e.id day) with h | h
        · rw [hval, h] at hg; simp at hg
        · exact h

/-- A concrete policy store: subject 7 with a single rule on day 2 (times in
minutes since midnight: 09:00–17:00). -/
def exampleStore : PolicyStore :=
  ⟨[⟨7, "Alice"⟩], [⟨7, 2, 540, 1020⟩]⟩

/-- Witness for `verify_access_cases`: at day 2, 12:00 the example store
grants subject 7. -/
theorem verify_access_cases_witness :
    verifyAccess exampleStore 7 2 720 = ⟨true, some "Alice", none⟩ := by
  have h := ((verify_access_cases exampleStore 7 2 720).2.2 ⟨7, "Alice"⟩
    (by decide)).2 (by decide)
  exact h.2.1 (by decide)

/-! ### `/api/check-access` endpoint (`app.py`, `check_access`) -/

/-- The JSON body returned by `check_access` (the HTTP status is 200 on
every path modelled here). -/
structure ApiResponse where
  status : String
  employeeName : Option String
  reason : Option String
deriving Repr, DecidableEq

/-- `check_access` on a well-formed request carrying `face_id`, paired with
a ghost counter of policy-store subject lookups (`verify_access` calls).
The unknown sentinel `face_id = -1` short-circuits before any lookup; the
`AccessLog` row written on each path touches no subject data and is not
part of the state. -/
def checkAccess (store : PolicyStore) (day t : Nat) (faceId : Int) :
    ApiResponse × Nat :=
  if faceId = -1 then
    (⟨"Denied", none, some "Unknown face - not recognized"⟩, 0)
  else
    let result := verifyAccess store faceId day t
    if result.granted then
      (⟨"Granted", result.employeeName, none⟩, 1)
    else
      (⟨"Denied", result.employeeName, some (result.reason.getD "Access denied")⟩, 1)

/-- C8: a query carrying the unknown-identity sentinel `-1` always returns
Denied with the not-recognized reason and performs zero subject lookups in
the policy store, whatever the store contents and the query instant. -/
theorem check_access_unknown_sentinel (store : PolicyStore) (day t : Nat) :
    checkAccess store day t (-1) =
      (⟨"Denied", none, some "Unknown face - not recognized"⟩, 0) := by
  simp [checkAccess]

/-! ### Decision cache (`recognize_and_control_proteus.py`, `_log_to_flask_api`) -/

/-- The controller's cache fields `_last_logged_face_id` /
`_cached_api_response`. -/
structure CacheState where
  lastLoggedFaceId : Option Int
  cachedApiResponse : Option ApiResponse
deriving Repr, DecidableEq

/-- Outcome of one `requests.post` to `/api/check-access`: `some r` for an
HTTP 200 answer with JSON body `r`, `none` for a non-200 status or a raised
request exception. -/
def QueryOracle : Type := Int → Option ApiResponse

/-- `_log_to_flask_api(face_id)`: returns the optional API response, the new
cache state, and whether an external query was actually performed.  A cached
response for the same `face_id` is returned without querying; a successful
query result is stored keyed to `face_id`; a failed query returns `None`
and leaves both cache fields untouched. -/
def logToFlaskApi (query : QueryOracle) (faceId : Int) (s : CacheState) :
    Option ApiResponse × CacheState × Bool :=
  if s.lastLoggedFaceId = some faceId ∧ s.cachedApiResponse.isSome then
    (s.cachedApiResponse, s, false)
  else
    match query faceId with
    | some r => (some r, ⟨some faceId, some r⟩, true)
    | none => (none, s, true)

/-- Number of external queries performed by two consecutive
`_log_to_flask_api` calls with the same `face_id`. -/
def queriesInTwoCalls (query : QueryOracle) (faceId : Int) (s : CacheState) : Nat :=
  let c1 := logToFlaskApi query faceId s
  let c2 := logToFlaskApi query faceId c1.2.1
  (if c1.2.2 then 1 else 0) + (if c2.2.2 then 1 else 0)

/-- C6: the claim as stated is false — when the external query fails, its
result is not cached, so two consecutive lookups with the same identity
both perform an external query (2 > 1). -/
theorem decision_cache_failure_requery_counterexample :
    queriesInTwoCalls (fun _ => none) 1 ⟨none, none⟩ = 2 ∧
      ¬ queriesInTwoCalls (fun _ => none) 1 ⟨none, none⟩ ≤ 1 := by
  constructor
  · rfl
  · decide

/-- C6 (amended): a cache hit (same identity, cached result present) returns
the cached result without querying; on a miss a successful query result is
stored keyed to the identity and returned; hence, provided the external
query succeeds, two consecutive lookups with the same identity perform at
most one external query. -/
theorem decision_cache_behaviour (query : QueryOracle) (faceId : Int)
    (s : CacheState) :
    (∀ r, s.lastLoggedFaceId = some faceId → s.cachedApiResponse = some r →
        logToFlaskApi query faceId s = (some r, s, false)) ∧
    (∀ r, ¬ (s.lastLoggedFaceId = some faceId ∧ s.cachedApiResponse.isSome) →
        query faceId = some r →
        logToFlaskApi query faceId s = (some r, ⟨some faceId, some r⟩, true)) ∧
    ((query faceId).isSome → queriesInTwoCalls query faceId s ≤ 1) := by
  refine ⟨?_, ?_, ?_⟩
  · intro r hid hc
    simp [logToFlaskApi, hid, hc]
  · intro r hmiss hq
    simp [logToFlaskApi, hmiss, hq]
  · intro hq
    obtain ⟨r, hr⟩ := Option.isSome_iff_exists.mp hq
    by_cases hhit : s.lastLoggedFaceId = some faceId ∧ s.cachedApiResponse.isSome
    · simp [queriesInTwoCalls, logToFlaskApi, hhit]
    · simp [queriesInTwoCalls, logToFlaskApi, hhit, hr]

/-- Witness for `decision_cache_behaviour`: with an always-succeeding
oracle, two consecutive calls for identity 7 query at most once. -/
theorem decision_cache_behaviour_witness :
    queriesInTwoCalls (fun _ => some ⟨"Granted", some "Alice", none⟩) 7
      ⟨none, none⟩ ≤ 1 :=
  (decision_cache_behaviour (fun _ => some ⟨"Granted", some "Alice", none⟩) 7
    ⟨none, none⟩).2.2 (by decide)

/-- C10: on a cache miss whose external query fails, `_log_to_flask_api`
returns `None` and leaves both cache fields unchanged, so the immediately
following call with the same identity performs a fresh external query; and
the cache state only ever changes by storing a successful query result
keyed to the queried identity. -/
theorem failed_query_not_cached (query : QueryOracle) (faceId : Int)
    (s : CacheState) :
    (¬ (s.lastLoggedFaceId = some faceId ∧ s.cachedApiResponse.isSome) →
        query faceId = none →
        logToFlaskApi query faceId s = (none, s, true) ∧
        (logToFlaskApi query faceId (logToFlaskApi query faceId s).2.1).2.2 = true) ∧
    (∀ (r : Option ApiResponse) (s' : CacheState) (q : Bool),
        logToFlaskApi query faceId s = (r, s', q) → s' ≠ s →
        ∃ a, query faceId = some a ∧ s' = ⟨some faceId, some a⟩ ∧ r = some a) := by
  constructor
  · intro hmiss hq
    have h1 : logToFlaskApi query faceId s = (none, s, true) := by
      simp [logToFlaskApi, hmiss, hq]
    refine ⟨h1, ?_⟩
    rw [h1]
    simp [logToFlaskApi, hmiss, hq]
  · intro r s' q h hne
    by_cases hhit : s.lastLoggedFaceId = some faceId ∧ s.cachedApiResponse.isSome
    · simp [logToFlaskApi, hhit] at h
      exact absurd h.2.1.symm hne
    · rcases hqv : query faceId with _ | a
      · simp [logToFlaskApi, hhit, hqv] at h
        exact absurd h.2.1.symm hne
      · simp [logToFlaskApi, hhit, hqv] at h
        exact ⟨a, rfl, h.2.1.symm, h.1.symm⟩

/-- Witness for `failed_query_not_cached`: an always-failing oracle on an
empty cache returns `None`, leaves the cache empty, and the next call
queries again. -/
theorem failed_query_not_cached_witness :
    logToFlaskApi (fun _ => none) 1 ⟨none, none⟩ =
        (none, ⟨none, none⟩, true) ∧
      (logToFlaskApi (fun _ => none) 1
        (logToFlaskApi (fun _ => none) 1 ⟨none, none⟩).2.1).2.2 = true :=
  (failed_query_not_cached (fun _ => none) 1 ⟨none, none⟩).1 (by decide) rfl

/-! ### Receiver (`Proteus_program_face_recognition.py`)

The remote device's line protocol and the non-blocking motor state
machine.  Lines are lists of characters; `str.strip()` and `float()` are
modelled on the ASCII strings this protocol carries. -/

/-- The whitespace characters removed by Python `str.strip()` (ASCII part). -/
def isPySpace (c : Char) : Bool :=
  c = ' ' || c = '\t' || c = '\n' || c = '\x0b' || c = '\x0c' || c = '\r'

/-- Python `str.strip()`. -/
def pyStrip (cs : List Char) : List Char :=
  ((cs.dropWhile isPySpace).reverse.dropWhile isPySpace).reverse

/-- Python `str.startswith(pre)`. -/
def strStarts (pre cs : List Char) : Bool := pre.isPrefixOf cs

/-- Split a character list at the first occurrence of `sep`
(Python `s.split(sep, 1)` when `sep` occurs). -/
def splitFirstChar (sep : Char) : List Char → Option (List Char × List Char)
  | [] => none
  | c :: cs =>
    if c = sep then some ([], cs)
    else
      match splitFirstChar sep cs with
      | none => none
      | some (l, r) => some (c :: l, r)

theorem splitFirstChar_eq_none_iff (sep : Char) (cs : List Char) :
    splitFirstChar sep cs = none ↔ sep ∉ cs := by
  induction cs with
  | nil => simp [splitFirstChar]
  | cons c cs ih =>
    by_cases h : c = sep
    · subst h; simp [splitFirstChar]
    · rcases hs : splitFirstChar sep cs with _ | p
      · simp only [splitFirstChar, if_neg h, hs]
        simp only [List.mem_cons, true_iff]
        intro hor
        rcases hor with hc | hc
        · exact h hc.symm
        · exact ih.mp hs hc
      · obtain ⟨l, r⟩ := p
        simp only [splitFirstChar, if_neg h, hs]
        constructor
        · intro hf; exact absurd hf (by simp)
        · intro hmem
          exfalso
          have : sep ∈ cs := by
            by_contra hn
            rw [← ih] at hn
            rw [hn] at hs
            exact absurd hs (by simp)
          exact hmem (List.mem_cons_of_mem _ this)

theorem splitFirstChar_rest_length (sep : Char) :
    ∀ (cs l r : List Char), splitFirstChar sep cs = some (l, r) →
      r.length < cs.length := by
  intro cs
  induction cs with
  | nil => intro l r h; exact absurd h (by simp [splitFirstChar])
  | cons c cs ih =>
    intro l r h
    by_cases hc : c = sep
    · subst hc
      simp [splitFirstChar] at h
      rw [← h.2]
      simp
    · rcases hs : splitFirstChar sep cs with _ | p
      · simp [splitFirstChar, if_neg hc, hs] at h
      · obtain ⟨l', r'⟩ := p
        simp only [splitFirstChar, if_neg hc, hs, Option.some.injEq, Prod.mk.injEq] at h
        have := ih l' r' hs
        rw [← h.2]
        simp
        omega

/-- A nonempty all-digits character run, as a natural number. -/
def parseDigits : List Char → Option Nat
  | [] => none
  | cs =>
    if cs.all (fun c => '0' ≤ c && c ≤ '9') then
      some (cs.foldl (fun n c => 10 * n + (c.toNat - '0'.toNat)) 0)
    else none

/-- Model of Python `float()` restricted to plain decimal literals —
an optional sign followed by digits with at most one dot (`"3.5"`,
`"5.0"`, `"2."`, `".25"`).  Anything outside this grammar is rejected,
which embeds the `ValueError` branch of the receiver. -/
def parseDecimalCore (cs : List Char) : Option ℚ :=
  match splitFirstChar '.' cs with
  | none => (parseDigits cs).map (fun n => mkRat (Int.ofNat n) 1)
  | some (ip, fp) =>
    if (splitFirstChar '.' fp).isSome then none
    else if ip = [] then
      (parseDigits fp).map (fun f => mkRat (Int.ofNat f) (10 ^ fp.length))
    else if fp = [] then
      (parseDigits ip).map (fun i => mkRat (Int.ofNat i) 1)
    else
      match parseDigits ip, parseDigits fp with
      | some i, some f =>
        some (mkRat (Int.ofNat (i * 10 ^ fp.length + f)) (10 ^ fp.length))
      | _, _ => none

def parsePyFloat : List Char → Option ℚ
  | '+' :: rest => parseDecimalCore rest
  | '-' :: rest => (parseDecimalCore rest).map (fun q => -q)
  | cs => parseDecimalCore cs

/-- Receiver device state: the motor state machine globals
(`motor_state`, `motor_start_time`, `motor_duration`) plus ghost counters
for `door_open` dispatches and for motor stops performed by
`update_motor_state`. -/
structure DevState where
  motorRunning : Bool
  motorStartTime : ℚ
  motorDuration : ℚ
  opens : Nat
  stops : Nat
deriving Repr, DecidableEq

/-- `door_open(duration_seconds)`: record the duration and start time and
start the motor; no blocking wait — this is the whole body. -/
def doorOpen (now : ℚ) (dur : ℚ) (d : DevState) : DevState :=
  { d with motorDuration := dur, motorStartTime := now, motorRunning := true,
           opens := d.opens + 1 }

/-- `door_close()`: stop the motor immediately. -/
def doorClose (d : DevState) : DevState :=
  { d with motorRunning := false }

/-- `update_motor_state()` at wall-clock `now`: no-op when stopped; stops
the motor when the duration is non-positive or when
`now - motor_start_time >= motor_duration`. -/
def updateMotorState (now : ℚ) (d : DevState) : DevState :=
  if d.motorRunning = false then d
  else if d.motorDuration ≤ 0 then
    { d with motorRunning := false, stops := d.stops + 1 }
  else if d.motorDuration ≤ now - d.motorStartTime then
    { d with motorRunning := false, stops := d.stops + 1 }
  else d

/-- `parse_command(data)`: strip, then dispatch on the keyword.  `INIT:`
and `LCD:` lines only drive the LCD panel, which carries no feedback into
the control flow and is not part of the state; unknown lines are logged
and dropped.  An invalid `DOOR:OPEN` duration falls back to `door_open()`
with its default `duration_seconds = 5.0`. -/
def parseCommand (now : ℚ) (raw : List Char) (d : DevState) : DevState :=
  let data := pyStrip raw
  if data = [] then d
  else if strStarts "INIT:".toList data then d
  else if strStarts "LCD:".toList data then d
  else if strStarts "DOOR:".toList data then
    let doorCmd := pyStrip (data.drop 5)
    if doorCmd = "CLOSE".toList then doorClose d
    else if strStarts "OPEN:".toList doorCmd then
      match parsePyFloat (doorCmd.drop 5) with
      | some dur => doorOpen now dur d
      | none => doorOpen now 5 d
    else d
  else d

/-- The per-line step of the main loop: `line = line.strip();
if line: parse_command(line)`. -/
def handleLine (now : ℚ) (line : List Char) (d : DevState) : DevState :=
  let l := pyStrip line
  if l = [] then d else parseCommand now l d

/-- The `while "\n" in buffer` loop: split off complete lines and dispatch
each exactly once, keeping the unterminated remainder buffered. -/
def drain (now : ℚ) (buf : List Char) (d : DevState) : List Char × DevState :=
  match h : splitFirstChar '\n' buf with
  | none => (buf, d)
  | some (line, rest) => drain now rest (handleLine now line d)
termination_by buf.length
decreasing_by exact splitFirstChar_rest_length '\n' buf line rest h

/-- Receiver state: the accumulation buffer plus the device state. -/
structure RecvState where
  buffer : List Char
  dev : DevState
deriving Repr, DecidableEq

def initDev : DevState := ⟨false, 0, 0, 0, 0⟩

def initRecv : RecvState := ⟨[], initDev⟩

/-- One iteration of the receiver main loop at wall-clock `now`:
`update_motor_state()`, then — only when `recv` returned data — append it
to the buffer and process all complete lines. -/
def tick (now : ℚ) (data : List Char) (s : RecvState) : RecvState :=
  let d1 := updateMotorState now s.dev
  if data = [] then ⟨s.buffer, d1⟩
  else
    let r := drain now (s.buffer ++ data) d1
    ⟨r.1, r.2⟩

/-- Run the receiver over a sequence of `(wall-clock, received-data)`
loop iterations. -/
def runReceiver (s : RecvState) : List (ℚ × List Char) → RecvState
  | [] => s
  | (t, data) :: rest => runReceiver (tick t data s) rest

/-! ### Sender-side encoding (`recognize_and_control_proteus.py`) -/

/-- Python `f"{x:.1f}"` for a nonnegative value that is an exact multiple
of 0.1, given in tenths. -/
def formatTenths (tenths : Nat) : String :=
  toString (tenths / 10) ++ "." ++ toString (tenths % 10)

/-- The wire line `_send_command(f"DOOR:OPEN:{d:.1f}")` produces: the
command text followed by the `"\n"` terminator appended by
`_send_command`. -/
def encodeDoorOpenLine (tenths : Nat) : String :=
  "DOOR:OPEN:" ++ formatTenths tenths ++ "\n"

/-! ### Protocol round trip and motor timer: helper lemmas -/

theorem drain_of_no_newline (now : ℚ) (buf : List Char) (d : DevState)
    (h : '\n' ∉ buf) : drain now buf d = (buf, d) := by
  have hs : splitFirstChar '\n' buf = none := (splitFirstChar_eq_none_iff _ _).mpr h
  rw [drain]
  split
  · rfl
  · rename_i line rest heq
    rw [hs] at heq
    cases heq

/-- Feeding the full open line in one piece dispatches `door_open(3.5)`. -/
theorem drain_full_open_line (now : ℚ) (d : DevState) :
    drain now ("DOOR:OPEN:3.5\n".toList) d = ([], doorOpen now (mkRat 7 2) d) := by
  rw [drain]
  split
  · rename_i heq
    exact absurd heq (by decide)
  · rename_i line rest heq
    have h2 : splitFirstChar '\n' ("DOOR:OPEN:3.5\n".toList) =
        some ("DOOR:OPEN:3.5".toList, []) := by decide
    rw [h2] at heq
    cases heq
    rw [drain]
    rfl

theorem updateMotorState_opens (now : ℚ) (d : DevState) :
    (updateMotorState now d).opens = d.opens := by
  unfold updateMotorState
  split <;> try rfl
  split <;> try rfl
  split <;> rfl

theorem updateMotorState_motorDuration (now : ℚ) (d : DevState) :
    (updateMotorState now d).motorDuration = d.motorDuration := by
  unfold updateMotorState
  split <;> try rfl
  split <;> try rfl
  split <;> rfl

theorem updateMotorState_of_stopped (now : ℚ) (d : DevState)
    (h : d.motorRunning = false) : updateMotorState now d = d := by
  simp [updateMotorState, h]

/-- The received chunks of a sequence of loop iterations, in arrival order. -/
def dataOf (events : List (ℚ × List Char)) : List Char :=
  (events.map Prod.snd).flatten

/-- Iterations that receive no data only advance the motor timer; they keep
the buffer, the open counter and the programmed duration. -/
theorem runReceiver_empty_data :
    ∀ (events : List (ℚ × List Char)) (s : RecvState),
      (∀ e ∈ events, e.2 = ([] : List Char)) →
      (runReceiver s events).buffer = s.buffer ∧
      (runReceiver s events).dev.opens = s.dev.opens ∧
      (runReceiver s events).dev.motorDuration = s.dev.motorDuration := by
  intro events
  induction events with
  | nil => intro s _; exact ⟨rfl, rfl, rfl⟩
  | cons e rest ih =>
    intro s h
    obtain ⟨t, data⟩ := e
    have hdata : data = [] := h (t, data) (List.mem_cons_self _ _)
    subst hdata
    have hstep : tick t [] s = ⟨s.buffer, updateMotorState t s.dev⟩ := by
      simp [tick]
    simp only [runReceiver, hstep]
    have hrest := ih ⟨s.buffer, updateMotorState t s.dev⟩
      (fun e he => h e (List.mem_cons_of_mem _ he))
    refine ⟨hrest.1, ?_, ?_⟩
    · rw [hrest.2.1]; exact updateMotorState_opens t s.dev
    · rw [hrest.2.2]; exact updateMotorState_motorDuration t s.dev

/-- A chunk of the wire stream that already contains the terminator must be
the whole single-line stream: if `p ++ q = body ++ ['\n']`, `'\n' ∈ p` and
`'\n' ∉ body` then `q = []`. -/
theorem suffix_nil_of_newline_mem {p q body : List Char}
    (hpq : p ++ q = body ++ ['\n']) (hp : '\n' ∈ p) (hb : '\n' ∉ body) :
    q = [] := by
  by_contra hq
  have hlen : p.length + q.length = body.length + 1 := by
    have := congrArg List.length hpq
    simpa using this
  have hle : p.length ≤ body.length := by
    rcases q with _ | ⟨c, q'⟩
    · exact absurd rfl hq
    · simp at hlen; omega
  have hptake : p = (body ++ ['\n']).take p.length := by
    rw [← hpq, List.take_left]
  rw [List.take_append_of_le_length hle] at hptake
  exact hb (List.take_subset _ _ (hptake ▸ hp))

/-- Splitting the wire line `DOOR:OPEN:3.5\n` into loop iterations in any
way dispatches `door_open` exactly once, leaves an empty buffer and
programs duration 7/2. -/
theorem runReceiver_open_line :
    ∀ (events : List (ℚ × List Char)) (s : RecvState),
      '\n' ∉ s.buffer →
      s.buffer ++ dataOf events = "DOOR:OPEN:3.5\n".toList →
      (runReceiver s events).dev.opens = s.dev.opens + 1 ∧
      (runReceiver s events).dev.motorDuration = mkRat 7 2 ∧
      (runReceiver s events).buffer = [] := by
  have hline : ("DOOR:OPEN:3.5\n".toList : List Char) =
      "DOOR:OPEN:3.5".toList ++ ['\n'] := by decide
  have hbody : '\n' ∉ ("DOOR:OPEN:3.5".toList : List Char) := by decide
  intro events
  induction events with
  | nil =>
    intro s hnb hfeed
    rw [dataOf] at hfeed
    simp at hfeed
    rw [hfeed] at hnb
    exact absurd (by decide) hnb
  | cons e rest ih =>
    intro s hnb hfeed
    obtain ⟨t, data⟩ := e
    have hfeed' : (s.buffer ++ data) ++ dataOf rest = "DOOR:OPEN:3.5\n".toList := by
      rw [← hfeed, dataOf, dataOf]
      simp
    by_cases hdata : data = []
    · subst hdata
      have hstep : tick t [] s = ⟨s.buffer, updateMotorState t s.dev⟩ := by
        simp [tick]
      simp only [runReceiver, hstep]
      have := ih ⟨s.buffer, updateMotorState t s.dev⟩ hnb (by simpa using hfeed')
      refine ⟨?_, this.2.1, this.2.2⟩
      rw [this.1, updateMotorState_opens]
    · by_cases hmem : '\n' ∈ s.buffer ++ data
      · -- the terminator arrived: the accumulated buffer is the whole line
        have hrest : dataOf rest = [] := by
          refine suffix_nil_of_newline_mem ?_ hmem hbody
          rw [hfeed']; exact hline
        have hfull : s.buffer ++ data = "DOOR:OPEN:3.5\n".toList := by
          rw [hrest, List.append_nil] at hfeed'; exact hfeed'
        have hstep : tick t data s =
            ⟨[], doorOpen t (mkRat 7 2) (updateMotorState t s.dev)⟩ := by
          simp only [tick, if_neg hdata, hfull, drain_full_open_line]
        simp only [runReceiver, hstep]
        have hallnil : ∀ e ∈ rest, e.2 = ([] : List Char) := by
          intro e he
          have := List.flatten_eq_nil_iff.mp hrest
          exact this e.2 (List.mem_map_of_mem Prod.snd he)
        have hfin := runReceiver_empty_data rest
          ⟨[], doorOpen t (mkRat 7 2) (updateMotorState t s.dev)⟩ hallnil
        refine ⟨?_, ?_, hfin.1⟩
        · rw [hfin.2.1]
          simp [doorOpen, updateMotorState_opens]
        · rw [hfin.2.2]
          simp [doorOpen]
      · -- no terminator yet: the chunk is buffered, nothing dispatches
        have hstep : tick t data s =
            ⟨s.buffer ++ data, updateMotorState t s.dev⟩ := by
          simp only [tick, if_neg hdata,
            drain_of_no_newline t (s.buffer ++ data) (updateMotorState t s.dev) hmem]
        simp only [runReceiver, hstep]
        have := ih ⟨s.buffer ++ data, updateMotorState t s.dev⟩ hmem hfeed'
        refine ⟨?_, this.2.1, this.2.2⟩
        rw [this.1, updateMotorState_opens]

/-- C4: encoding `OpenDoor(3.5)` (35 tenths of a second) yields exactly the
wire line `DOOR:OPEN:3.5\n`, and a receiver fed that line across any split
into loop iterations dispatches exactly one `door_open` action, with the
parsed duration 3.5 s. -/
theorem door_open_roundtrip (events : List (ℚ × List Char))
    (hfeed : (events.map Prod.snd).flatten = (encodeDoorOpenLine 35).toList) :
    encodeDoorOpenLine 35 = "DOOR:OPEN:3.5\n" ∧
    (runReceiver initRecv events).dev.opens = 1 ∧
    (runReceiver initRecv events).dev.motorDuration = (7 : ℚ) / 2 := by
  have henc : encodeDoorOpenLine 35 = "DOOR:OPEN:3.5\n" := by decide
  have h := runReceiver_open_line events initRecv (by simp [initRecv])
    (by rw [dataOf]; simp only [initRecv]; rw [hfeed, henc]; simp)
  refine ⟨henc, ?_, ?_⟩
  · simpa [initRecv, initDev] using h.1
  · rw [h.2.1, Rat.mkRat_eq_div]; norm_num

/-- Witness for `door_open_roundtrip`: the line delivered in three
fragments dispatches exactly one open. -/
theorem door_open_roundtrip_witness :
    (runReceiver initRecv
        [(0, "DOOR:OP".toList), (1, "EN:3.".toList), (2, "5\n".toList)]).dev.opens
      = 1 :=
  (door_open_roundtrip
    [(0, "DOOR:OP".toList), (1, "EN:3.".toList), (2, "5\n".toList)]
    (by decide)).2.1

/-! ### Motor timer (C5) -/

/-- `update_motor_state()` evaluated once per control-loop tick, at the
given wall-clock instants in order. -/
def runUpdates (d : DevState) : List ℚ → DevState
  | [] => d
  | t :: ts => runUpdates (updateMotorState t d) ts

theorem runUpdates_of_stopped (d : DevState) (h : d.motorRunning = false) :
    ∀ ts : List ℚ, runUpdates d ts = d := by
  intro ts
  induction ts with
  | nil => rfl
  | cons t ts ih => simp only [runUpdates, updateMotorState_of_stopped t d h, ih]

theorem updateMotorState_of_early (now : ℚ) (d : DevState)
    (hrun : d.motorRunning = true) (hdur : 0 < d.motorDuration)
    (hlt : now - d.motorStartTime < d.motorDuration) :
    updateMotorState now d = d := by
  unfold updateMotorState
  rw [hrun]
  simp only [Bool.true_eq_false, if_false]
  rw [if_neg (by linarith), if_neg (by linarith)]

theorem runUpdates_of_early (dur t₀ : ℚ) (d₀ : DevState) (hdur : 0 < dur) :
    ∀ pre : List ℚ, (∀ p ∈ pre, p - t₀ < dur) →
      runUpdates (doorOpen t₀ dur d₀) pre = doorOpen t₀ dur d₀ := by
  intro pre
  induction pre with
  | nil => intro _; rfl
  | cons p ps ih =>
    intro h
    have hp := h p (List.mem_cons_self _ _)
    simp only [runUpdates,
      updateMotorState_of_early p (doorOpen t₀ dur d₀) rfl (by simpa [doorOpen] using hdur)
        (by simpa [doorOpen] using hp)]
    exact ih (fun q hq => h q (List.mem_cons_of_mem _ hq))

/-- C5: accepting `DOOR:OPEN:d` starts the motor and records the start time
and duration as a pure state update (no wait of any kind); the per-tick
updates leave the motor running through every tick with elapsed time below
`d` and stop it exactly once, at the first tick with elapsed time `≥ d`,
after which further ticks change nothing; and `DOOR:CLOSE` stops the motor
immediately, whatever the timer state. -/
theorem motor_timer_behaviour (d₀ : DevState) (dur t₀ : ℚ) (hdur : 0 < dur)
    (pre post : List ℚ) (t : ℚ) (hpre : ∀ p ∈ pre, p - t₀ < dur)
    (ht : dur ≤ t - t₀) :
    (doorOpen t₀ dur d₀).motorRunning = true ∧
    (doorOpen t₀ dur d₀).motorStartTime = t₀ ∧
    (doorOpen t₀ dur d₀).motorDuration = dur ∧
    runUpdates (doorOpen t₀ dur d₀) pre = doorOpen t₀ dur d₀ ∧
    runUpdates (doorOpen t₀ dur d₀) (pre ++ t :: post) =
      { doorOpen t₀ dur d₀ with
        motorRunning := false
        stops := (doorOpen t₀ dur d₀).stops + 1 } ∧
    (∀ (now : ℚ) (d : DevState),
        parseCommand now ("DOOR:CLOSE".toList) d = doorClose d ∧
        (doorClose d).motorRunning = false) := by
  have hearly := runUpdates_of_early dur t₀ d₀ hdur pre hpre
  have happ : ∀ (d : DevState) (xs ys : List ℚ),
      runUpdates d (xs ++ ys) = runUpdates (runUpdates d xs) ys := by
    intro d xs
    induction xs generalizing d with
    | nil => intro ys; rfl
    | cons x xs ih =>
      intro ys
      simp only [List.cons_append, runUpdates]
      exact ih _ ys
  have hstop : updateMotorState t (doorOpen t₀ dur d₀) =
      { doorOpen t₀ dur d₀ with
        motorRunning := false
        stops := (doorOpen t₀ dur d₀).stops + 1 } := by
    unfold updateMotorState
    simp only [doorOpen, Bool.true_eq_false, if_false]
    rw [if_neg (by simp; linarith), if_pos (by simpa using ht)]
  refine ⟨rfl, rfl, rfl, hearly, ?_, ?_⟩
  · rw [happ, hearly]
    simp only [runUpdates, hstop]
    exact runUpdates_of_stopped _ rfl post
  · intro now d
    exact ⟨rfl, rfl⟩

/-- Witness for `motor_timer_behaviour`: a door opened at time 0 for 1 s,
ticked at 0 and 1/2 (still running) then 1 and 2, stops exactly once. -/
theorem motor_timer_behaviour_witness :
    runUpdates (doorOpen 0 1 initDev) ([0, 1/2] ++ (1 : ℚ) :: [2]) =
      { doorOpen 0 1 initDev with
        motorRunning := false
        stops := (doorOpen 0 1 initDev).stops + 1 } :=
  (motor_timer_behaviour initDev 1 0 (by norm_num) [0, 1/2] [2] 1
    (by intro p hp; fin_cases hp <;> norm_num) (by norm_num)).2.2.2.2.1

/-! ### Malformed lines (C9) -/

/-- C9: a line whose stripped text starts with none of the recognized
keyword prefixes (`INIT:`, `LCD:`, `DOOR:`) leaves the receiver state —
in particular `motor_state`, `motor_start_time` and `motor_duration` —
completely unchanged (it is only logged); totality of `parseCommand`
embeds the absence of a crash. -/
theorem malformed_line_ignored (now : ℚ) (d : DevState) (line : List Char)
    (h1 : strStarts "INIT:".toList (pyStrip line) = false)
    (h2 : strStarts "LCD:".toList (pyStrip line) = false)
    (h3 : strStarts "DOOR:".toList (pyStrip line) = false) :
    parseCommand now line d = d ∧
    (parseCommand now line d).motorRunning = d.motorRunning ∧
    (parseCommand now line d).motorStartTime = d.motorStartTime ∧
    (parseCommand now line d).motorDuration = d.motorDuration := by
  have hmain : parseCommand now line d = d := by
    simp only [parseCommand]
    by_cases he : pyStrip line = []
    · rw [if_pos he]
    · rw [if_neg he, if_neg (by rw [h1]; simp), if_neg (by rw [h2]; simp),
        if_neg (by rw [h3]; simp)]
  exact ⟨hmain, by rw [hmain], by rw [hmain], by rw [hmain]⟩

/-- Witness for `malformed_line_ignored`: the complete line `FOO:BAR`
leaves the device state untouched. -/
theorem malformed_line_ignored_witness :
    parseCommand 0 ("FOO:BAR".toList) initDev = initDev :=
  (malformed_line_ignored 0 initDev ("FOO:BAR".toList)
    (by decide) (by decide) (by decide)).1

/-! ### Challenge-response authenticator (`recognize_and_control_proteus.py`)

The password-challenge fields are shared between the per-frame recognition
loop and the background password-input thread; every access runs inside a
`with self._password_lock:` critical section, so an execution is a sequence
of atomic events, interleaved arbitrarily.  Each event below is one such
critical section; the list of strings is the sequence of `_send_command`
texts it emits, and `timedOutCount` is a ghost counter of transitions that
clear a pending challenge because its countdown expired. -/

/-- `PASSWORD_TIMEOUT_SECONDS = 10.0`. -/
def PASSWORD_TIMEOUT_SECONDS : ℚ := 10

structure AuthState where
  passwordPending : Option String
  passwordStartTime : ℚ
  lastRecognizedUser : Option String
  timedOutCount : Nat
deriving Repr, DecidableEq

def initAuth : AuthState := ⟨none, 0, none, 0⟩

/-- `_request_password(username)` at wall-clock `now` (whole body under the
lock): a no-op when a challenge is already pending; otherwise records the
pending user and start time and shows the password prompt. -/
def requestPassword (username : String) (now : ℚ) (s : AuthState) :
    AuthState × List String :=
  match s.passwordPending with
  | some _ => (s, [])
  | none =>
    ({ s with passwordPending := some username, passwordStartTime := now },
     ["LCD:Mot de passe|" ++ username.take 12])

/-- The top-of-loop critical section of `_password_input_handler` at `now`:
nothing to do when no challenge is pending (the thread just sleeps); an
expired countdown emits the timeout display, clears the challenge and
returns the display to ready. -/
def collectorTimeoutCheck (now : ℚ) (s : AuthState) : AuthState × List String :=
  match s.passwordPending with
  | none => (s, [])
  | some _ =>
    if PASSWORD_TIMEOUT_SECONDS < now - s.passwordStartTime then
      ({ s with
          passwordPending := none
          timedOutCount := s.timedOutCount + 1 },
       ["LCD:Timeout|Acces refuse", "LCD:Systeme Pret|"])
    else (s, [])

/-- `stored_password is not None and stored_password == password`. -/
def verifyPassword (pwmap : String → Option String) (username pw : String) :
    Bool :=
  decide (pwmap username = some pw)

/-- The critical section of `_password_input_handler` after `input()`
returned `pw`, where `expectedUser` is the pending user captured when the
collector last held the lock: stale input is dropped; `q` cancels;
a correct password grants access; a wrong one restarts the countdown and
re-prompts. -/
def collectorInputStep (pwmap : String → Option String)
    (expectedUser pw : String) (now : ℚ) (s : AuthState) :
    AuthState × List String :=
  match s.passwordPending with
  | none => (s, [])
  | some u =>
    if u ≠ expectedUser then (s, [])
    else if pw.toLower = "q" then
      ({ s with passwordPending := none },
       ["LCD:Annule|", "LCD:Systeme Pret|"])
    else if verifyPassword pwmap expectedUser pw then
      ({ s with passwordPending := none },
       ["LCD:Bienvenue|" ++ expectedUser.take 16, "DOOR:OPEN:5.0"])
    else
      ({ s with passwordStartTime := now },
       ["LCD:Mot de passe|Incorrect", "LCD:Mot de passe|" ++ expectedUser.take 12])

/-- The `len(faces) == 0` branch of `process_frame` at `now` (stability and
cache resets touch other state): under the lock, an expired pending
challenge is cleared and the display returned to ready — with no timeout
display — and `_last_recognized_user` is reset. -/
def frameNoFacesStep (now : ℚ) (s : AuthState) : AuthState × List String :=
  match s.passwordPending with
  | none => ({ s with lastRecognizedUser := none }, [])
  | some _ =>
    if PASSWORD_TIMEOUT_SECONDS < now - s.passwordStartTime then
      ({ s with
          passwordPending := none
          lastRecognizedUser := none
          timedOutCount := s.timedOutCount + 1 },
       ["LCD:Systeme Pret|"])
    else ({ s with lastRecognizedUser := none }, [])

/-- The atomic critical sections that touch the challenge record. -/
inductive AuthEvent where
  | requestPw (username : String) (now : ℚ)
  | collectorCheck (now : ℚ)
  | input (expectedUser pw : String) (now : ℚ)
  | noFaces (now : ℚ)
deriving Repr, DecidableEq

def authStep (pwmap : String → Option String) (s : AuthState) :
    AuthEvent → AuthState × List String
  | .requestPw u now => requestPassword u now s
  | .collectorCheck now => collectorTimeoutCheck now s
  | .input u pw now => collectorInputStep pwmap u pw now s
  | .noFaces now => frameNoFacesStep now s

/-- Run an arbitrary interleaving of critical sections, collecting the
emitted command texts in order. -/
def runAuth (pwmap : String → Option String) (s : AuthState) :
    List AuthEvent → AuthState × List String
  | [] => (s, [])
  | e :: rest =>
    let r := authStep pwmap s e
    let t := runAuth pwmap r.1 rest
    (t.1, r.2 ++ t.2)

/-- Number of challenges in the Pending state: the code keeps the pending
challenge in the single field `_password_pending`. -/
def pendingCount (s : AuthState) : Nat :=
  if s.passwordPending.isSome then 1 else 0

/-- C3: across arbitrary interleavings of the lock-protected critical
sections, at most one challenge is pending at any instant, and
`_request_password` invoked while a challenge is pending is a pure no-op:
it keeps the pending subject and the running countdown, emits nothing, and
creates no second challenge. -/
theorem single_pending_challenge (pwmap : String → Option String) :
    (∀ (events : List AuthEvent) (s₀ : AuthState),
        pendingCount (runAuth pwmap s₀ events).1 ≤ 1) ∧
    (∀ (s : AuthState) (u : String) (now : ℚ),
        s.passwordPending.isSome → requestPassword u now s = (s, [])) := by
  constructor
  · intro events s₀
    unfold pendingCount
    split <;> omega
  · intro s u now h
    obtain ⟨v, hv⟩ := Option.isSome_iff_exists.mp h
    simp [requestPassword, hv]

/-- Witness for `single_pending_challenge`: requesting a challenge for a
second user while one is pending changes nothing and emits nothing. -/
theorem single_pending_challenge_witness :
    requestPassword "zied" 5 ⟨some "hassen", 0, none, 0⟩ =
      (⟨some "hassen", 0, none, 0⟩, []) :=
  (single_pending_challenge (fun _ => none)).2
    ⟨some "hassen", 0, none, 0⟩ "zied" 5 rfl

/-! ### Challenge timeout (C7) -/

/-- Events that inspect the countdown: the collector's top-of-loop check
and the zero-face branch of the recognition loop. -/
def isTimeoutCheckEvent : AuthEvent → Bool
  | .collectorCheck _ => true
  | .noFaces _ => true
  | _ => false

def eventTime : AuthEvent → ℚ
  | .requestPw _ n => n
  | .collectorCheck n => n
  | .input _ _ n => n
  | .noFaces n => n

/-- A timeout check running after the countdown that started at `t₀`
expired. -/
def isLateCheck (t₀ : ℚ) (e : AuthEvent) : Bool :=
  isTimeoutCheckEvent e && decide (PASSWORD_TIMEOUT_SECONDS < eventTime e - t₀)

/-- Number of timeout/denied display commands in an emission trace. -/
def countTimeoutCmds (outs : List String) : Nat :=
  outs.count "LCD:Timeout|Acces refuse"

/-- Timeout checks before the countdown expires leave the challenge pending
with its original start time, emit nothing, and record no timeout. -/
theorem runAuth_checks_not_late (pwmap : String → Option String)
    (u : String) (t₀ : ℚ) (k : Nat) :
    ∀ (events : List AuthEvent) (lr : Option String),
      (∀ e ∈ events, isTimeoutCheckEvent e = true) →
      (∀ e ∈ events, isLateCheck t₀ e = false) →
      ∃ lr', runAuth pwmap ⟨some u, t₀, lr, k⟩ events =
        (⟨some u, t₀, lr', k⟩, []) := by
  intro events
  induction events with
  | nil => intro lr _ _; exact ⟨lr, rfl⟩
  | cons e rest ih =>
    intro lr hchk hlate
    have hce := hchk e (List.mem_cons_self _ _)
    have hle := hlate e (List.mem_cons_self _ _)
    have hchk' := fun x hx => hchk x (List.mem_cons_of_mem _ hx)
    have hlate' := fun x hx => hlate x (List.mem_cons_of_mem _ hx)
    cases e with
    | requestPw u' n => simp [isTimeoutCheckEvent] at hce
    | input u' pw n => simp [isTimeoutCheckEvent] at hce
    | collectorCheck n =>
      have hnl : ¬ PASSWORD_TIMEOUT_SECONDS < n - t₀ := by
        simpa [isLateCheck, isTimeoutCheckEvent, eventTime] using hle
      have hstep : authStep pwmap ⟨some u, t₀, lr, k⟩ (.collectorCheck n) =
          (⟨some u, t₀, lr, k⟩, []) := by
        simp [authStep, collectorTimeoutCheck, hnl]
      obtain ⟨lr', hrest⟩ := ih lr hchk' hlate'
      refine ⟨lr', ?_⟩
      simp only [runAuth, hstep, hrest, List.nil_append]
    | noFaces n =>
      have hnl : ¬ PASSWORD_TIMEOUT_SECONDS < n - t₀ := by
        simpa [isLateCheck, isTimeoutCheckEvent, eventTime] using hle
      have hstep : authStep pwmap ⟨some u, t₀, lr, k⟩ (.noFaces n) =
          (⟨some u, t₀, none, k⟩, []) := by
        simp [authStep, frameNoFacesStep, hnl]
      obtain ⟨lr', hrest⟩ := ih none hchk' hlate'
      refine ⟨lr', ?_⟩
      simp only [runAuth, hstep, hrest, List.nil_append]

/-- After the challenge record is cleared, further timeout checks change
neither the pending field nor the timeout counter and emit nothing. -/
theorem runAuth_checks_after_clear (pwmap : String → Option String) :
    ∀ (events : List AuthEvent) (s : AuthState),
      s.passwordPending = none →
      (∀ e ∈ events, isTimeoutCheckEvent e = true) →
      (runAuth pwmap s events).1.passwordPending = none ∧
      (runAuth pwmap s events).1.timedOutCount = s.timedOutCount ∧
      (runAuth pwmap s events).2 = [] := by
  intro events
  induction events with
  | nil => intro s hp _; exact ⟨hp, rfl, rfl⟩
  | cons e rest ih =>
    intro s hp hchk
    have hce := hchk e (List.mem_cons_self _ _)
    have hchk' := fun x hx => hchk x (List.mem_cons_of_mem _ hx)
    cases e with
    | requestPw u' n => simp [isTimeoutCheckEvent] at hce
    | input u' pw n => simp [isTimeoutCheckEvent] at hce
    | collectorCheck n =>
      have hstep : authStep pwmap s (.collectorCheck n) = (s, []) := by
        simp [authStep, collectorTimeoutCheck, hp]
      have := ih s hp hchk'
      simp only [runAuth, hstep]
      exact ⟨this.1, this.2.1, by simp [this.2.2]⟩
    | noFaces n =>
      have hstep : authStep pwmap s (.noFaces n) =
          ({ s with lastRecognizedUser := none }, []) := by
        simp [authStep, frameNoFacesStep, hp]
      have := ih { s with lastRecognizedUser := none } hp hchk'
      simp only [runAuth, hstep]
      exact ⟨this.1, this.2.1, by simp [this.2.2]⟩

theorem runAuth_append (pwmap : String → Option String) :
    ∀ (xs ys : List AuthEvent) (s : AuthState),
      runAuth pwmap s (xs ++ ys) =
        ((runAuth pwmap (runAuth pwmap s xs).1 ys).1,
         (runAuth pwmap s xs).2 ++ (runAuth pwmap (runAuth pwmap s xs).1 ys).2) := by
  intro xs
  induction xs with
  | nil => intro ys s; simp [runAuth]
  | cons x xs ih =>
    intro ys s
    simp only [List.cons_append, runAuth, List.append_eq]
    rw [ih ys (authStep pwmap s x).1]
    simp [List.append_assoc]

theorem exists_first_satisfying {α : Type} (p : α → Bool) :
    ∀ (l : List α), l.any p = true →
      ∃ pre x post, l = pre ++ x :: post ∧ (∀ y ∈ pre, p y = false) ∧
        p x = true := by
  intro l
  induction l with
  | nil => intro h; simp at h
  | cons a l ih =>
    intro h
    by_cases ha : p a = true
    · exact ⟨[], a, l, rfl, by simp, ha⟩
    · have hl : l.any p = true := by
        rcases List.any_eq_true.mp h with ⟨x, hx, hpx⟩
        rcases List.mem_cons.mp hx with hx | hx
        · exact absurd (hx ▸ hpx) ha
        · exact List.any_eq_true.mpr ⟨x, hx, hpx⟩
      obtain ⟨pre, x, post, hsplit, hpre, hpx⟩ := ih hl
      exact ⟨a :: pre, x, post, by rw [hsplit]; rfl, by
        intro y hy
        rcases List.mem_cons.mp hy with hy | hy
        · subst hy; exact Bool.eq_false_iff.mpr ha
        · exact hpre y hy, hpx⟩

theorem authStep_late_collector (pwmap : String → Option String)
    (u : String) (lr : Option String) (k : Nat) (n t₀ : ℚ)
    (h : PASSWORD_TIMEOUT_SECONDS < n - t₀) :
    authStep pwmap ⟨some u, t₀, lr, k⟩ (.collectorCheck n) =
      (⟨none, t₀, lr, k + 1⟩, ["LCD:Timeout|Acces refuse", "LCD:Systeme Pret|"]) := by
  simp [authStep, collectorTimeoutCheck, h]

theorem authStep_late_noFaces (pwmap : String → Option String)
    (u : String) (lr : Option String) (k : Nat) (n t₀ : ℚ)
    (h : PASSWORD_TIMEOUT_SECONDS < n - t₀) :
    authStep pwmap ⟨some u, t₀, lr, k⟩ (.noFaces n) =
      (⟨none, t₀, none, k + 1⟩, ["LCD:Systeme Pret|"]) := by
  simp [authStep, frameNoFacesStep, h]

/-- C7 (amended): consider a pending challenge started at `t₀` and any
interleaving of timeout checks with no credential input.  The challenge
transitions to the timed-out state at most once — exactly once iff some
check runs after the countdown expired; the timeout/denied display is
emitted at most once; and which happens at the first expired check decides
it: the collector's check emits exactly one timeout/denied command, while
the zero-face recognition path clears the challenge silently, emitting none. -/
theorem challenge_timeout_behaviour (pwmap : String → Option String)
    (u : String) (t₀ : ℚ) (lr : Option String) (k : Nat)
    (events : List AuthEvent)
    (hchk : ∀ e ∈ events, isTimeoutCheckEvent e = true) :
    ((runAuth pwmap ⟨some u, t₀, lr, k⟩ events).1.timedOutCount =
        k + (if events.any (isLateCheck t₀) then 1 else 0)) ∧
    countTimeoutCmds (runAuth pwmap ⟨some u, t₀, lr, k⟩ events).2 ≤ 1 ∧
    (∀ pre e post, events = pre ++ e :: post →
        (∀ y ∈ pre, isLateCheck t₀ y = false) → isLateCheck t₀ e = true →
        ((∃ n, e = AuthEvent.collectorCheck n) →
            countTimeoutCmds (runAuth pwmap ⟨some u, t₀, lr, k⟩ events).2 = 1) ∧
        ((∃ n, e = AuthEvent.noFaces n) →
            countTimeoutCmds (runAuth pwmap ⟨some u, t₀, lr, k⟩ events).2 = 0)) := by
  have hsplit : ∀ pre e post, events = pre ++ e :: post →
      (∀ y ∈ pre, isLateCheck t₀ y = false) → isLateCheck t₀ e = true →
      (runAuth pwmap ⟨some u, t₀, lr, k⟩ events).1.timedOutCount = k + 1 ∧
      ((∃ n, e = AuthEvent.collectorCheck n) →
          countTimeoutCmds (runAuth pwmap ⟨some u, t₀, lr, k⟩ events).2 = 1) ∧
      ((∃ n, e = AuthEvent.noFaces n) →
          countTimeoutCmds (runAuth pwmap ⟨some u, t₀, lr, k⟩ events).2 = 0) := by
    intro pre e post hev hpre hle
    subst hev
    have hchkpre : ∀ y ∈ pre, isTimeoutCheckEvent y = true := fun y hy =>
      hchk y (List.mem_append_left _ hy)
    have hchkpost : ∀ y ∈ post, isTimeoutCheckEvent y = true := fun y hy =>
      hchk y (List.mem_append_right _ (List.mem_cons_of_mem _ hy))
    have hand := Bool.and_eq_true_iff.mp hle
    have he1 : isTimeoutCheckEvent e = true := hand.1
    have he2 : PASSWORD_TIMEOUT_SECONDS < eventTime e - t₀ :=
      of_decide_eq_true hand.2
    obtain ⟨lr1, hA⟩ := runAuth_checks_not_late pwmap u t₀ k pre lr hchkpre hpre
    rw [runAuth_append, hA]
    cases e with
    | requestPw u' n => simp [isTimeoutCheckEvent] at he1
    | input u' pw n => simp [isTimeoutCheckEvent] at he1
    | collectorCheck n =>
      have hstep := authStep_late_collector pwmap u lr1 k n t₀ he2
      simp only [runAuth, hstep]
      have hB := runAuth_checks_after_clear pwmap post ⟨none, t₀, lr1, k + 1⟩
        rfl hchkpost
      refine ⟨hB.2.1, ?_, ?_⟩
      · intro _
        rw [countTimeoutCmds, List.count_append, List.count_append, hB.2.2]
        rfl
      · rintro ⟨n', hn'⟩
        cases hn'
    | noFaces n =>
      have hstep := authStep_late_noFaces pwmap u lr1 k n t₀ he2
      simp only [runAuth, hstep]
      have hB := runAuth_checks_after_clear pwmap post ⟨none, t₀, none, k + 1⟩
        rfl hchkpost
      refine ⟨hB.2.1, ?_, ?_⟩
      · rintro ⟨n', hn'⟩
        cases hn'
      · intro _
        rw [countTimeoutCmds, List.count_append, List.count_append, hB.2.2]
        rfl
  by_cases hany : events.any (isLateCheck t₀) = true
  · obtain ⟨pre, e, post, hev, hpre, hle⟩ :=
      exists_first_satisfying (isLateCheck t₀) events hany
    have h := hsplit pre e post hev hpre hle
    refine ⟨?_, ?_, fun pre' e' post' hev' hpre' hle' =>
      (hsplit pre' e' post' hev' hpre' hle').2⟩
    · rw [if_pos hany, h.1]
    · have hand := Bool.and_eq_true_iff.mp hle
      cases e with
      | requestPw u' n => simp [isTimeoutCheckEvent] at hand
      | input u' pw n => simp [isTimeoutCheckEvent] at hand
      | collectorCheck n => rw [h.2.1 ⟨n, rfl⟩]
      | noFaces n => rw [h.2.2 ⟨n, rfl⟩]; omega
  · have hf : events.any (isLateCheck t₀) = false := Bool.eq_false_iff.mpr hany
    have hall : ∀ e ∈ events, isLateCheck t₀ e = false := by
      intro e he
      exact Bool.eq_false_iff.mpr (fun hx => (List.any_eq_false.mp hf) e he hx)
    obtain ⟨lr1, hA⟩ := runAuth_checks_not_late pwmap u t₀ k events lr hchk hall
    rw [hA]
    refine ⟨?_, by simp [countTimeoutCmds], fun pre e post hev hpre hle => ?_⟩
    · rw [if_neg hany]
      rfl
    · exfalso
      have : e ∈ events := by rw [hev]; exact List.mem_append_right _ (List.mem_cons_self _ _)
      rw [hall e this] at hle
      cases hle

/-- Witness for `challenge_timeout_behaviour`: a collector check 11 s after
the challenge started emits the timeout display exactly once. -/
theorem challenge_timeout_behaviour_witness :
    countTimeoutCmds (runAuth (fun _ => none) ⟨some "zied", 0, none, 0⟩
        [AuthEvent.collectorCheck 11]).2 = 1 :=
  ((challenge_timeout_behaviour (fun _ => none) "zied" 0 none 0
      [AuthEvent.collectorCheck 11]
      (by intro e he; simp at he; subst he; rfl)).2.2
    [] (AuthEvent.collectorCheck 11) [] rfl (by intro y hy; cases hy)
    (by
      simp only [isLateCheck, isTimeoutCheckEvent, eventTime, Bool.true_and,
        PASSWORD_TIMEOUT_SECONDS, decide_eq_true_eq]
      norm_num)).1 ⟨11, rfl⟩

/-- C7: the claim as stated is false — when the zero-face branch of the
recognition loop is the first to observe the expired countdown, the
challenge transitions to the timed-out state (once) but zero
timeout/denied display commands are emitted, not exactly one. -/
theorem challenge_timeout_silent_counterexample :
    (runAuth (fun _ => none) initAuth
        [AuthEvent.requestPw "zied" 0, AuthEvent.noFaces 11]).1.timedOutCount = 1 ∧
    countTimeoutCmds (runAuth (fun _ => none) initAuth
        [AuthEvent.requestPw "zied" 0, AuthEvent.noFaces 11]).2 = 0 ∧
    ¬ countTimeoutCmds (runAuth (fun _ => none) initAuth
        [AuthEvent.requestPw "zied" 0, AuthEvent.noFaces 11]).2 = 1 := by
  have hreq : authStep (fun _ => none) initAuth (.requestPw "zied" 0) =
      (⟨some "zied", 0, none, 0⟩, ["LCD:Mot de passe|zied"]) := rfl
  have hnf : authStep (fun _ => none) (⟨some "zied", 0, none, 0⟩ : AuthState)
      (.noFaces 11) = (⟨none, 0, none, 1⟩, ["LCD:Systeme Pret|"]) := by
    simp only [authStep, frameNoFacesStep]
    rw [if_pos (by norm_num [PASSWORD_TIMEOUT_SECONDS])]
  have hrun : runAuth (fun _ => none) initAuth
      [AuthEvent.requestPw "zied" 0, AuthEvent.noFaces 11] =
      (⟨none, 0, none, 1⟩, ["LCD:Mot de passe|zied", "LCD:Systeme Pret|"]) := by
    simp only [runAuth, hreq, hnf]
    rfl
  rw [hrun]
  exact ⟨rfl, rfl, by decide⟩

end FaceAccess
